import Mathlib

set_option maxHeartbeats 1000000

/-!
Shallow embedding of the versioned storage engine of
`ducklake-quick-start` (`internal/storage/deltalake.go` together with the
lakehouse-method file defining `GetByVersion`, `GetByTimestamp`,
`CreateVersion`, `EvolveSchema`, constraint validation and the
query/filter engine for `DeltaLakeRepository`).

Modelling conventions:
* Go `int`/`int64` are modelled as `Int` (no claim exercises overflow).
* `time.Time` values are modelled as `Int` instants; only ordering and
  equality of timestamps are observed by any verified claim.  Functions
  that call `time.Now()` take the current instant as an explicit argument.
* File I/O always succeeds in the model; the base directory is a finite
  map from file names to already-parsed record lists.  File names are an
  inductive type: `partFile v` stands for the string
  `fmt.Sprintf("part-%05d-%05d.json", v, v)` and `versionFile v` for
  `fmt.Sprintf("version_%d.json", v)`; distinct constructors model the
  fact that these two naming families never collide as strings.
* Go maps are modelled as association lists with overwrite (`mset`),
  lookup (`mget`) and deletion (`mdel`).  Where the Go code iterates a
  map, the model iterates the association list; Go's iteration order is
  unspecified, so list order plays the role of one admissible iteration
  order.
* Mutating methods on `*DeltaLakeRepository` are explicit state passing:
  they take the receiver state and return the updated state together with
  the returned `error` (`Option String`, `none` = nil).
-/

namespace DuckLake

/-- Association-list lookup modelling a Go map read. -/
def mget {κ α : Type} [DecidableEq κ] (k : κ) : List (κ × α) → Option α
  | [] => none
  | p :: rest => if p.1 = k then some p.2 else mget k rest

/-- Association-list overwrite modelling a Go map assignment `m[k] = v`. -/
def mset {κ α : Type} [DecidableEq κ] (k : κ) (v : α) (m : List (κ × α)) :
    List (κ × α) :=
  (k, v) :: m.filter (fun p => decide ¬(p.1 = k))

/-- Association-list removal modelling Go `delete(m, k)`. -/
def mdel {κ α : Type} [DecidableEq κ] (k : κ) (m : List (κ × α)) :
    List (κ × α) :=
  m.filter (fun p => decide ¬(p.1 = k))

/-- `loader.Exercise`: one typed record. -/
structure Exercise where
  id : Int
  name : String
  etype : String
  duration : Int
  calories : Int
  date : Int
  description : String
deriving DecidableEq, Repr

/-- `FieldType` string constants of the schema registry. -/
inductive FieldType where
  | int | string | float | boolean | timestamp | date | array | map | struct
deriving DecidableEq, Repr

/-- Dynamic values (`interface{}`) as they occur in conditions and field
defaults: the engine's records only ever produce `int`, `string` and
`time.Time` dynamic values.  Go `==` on `interface{}` compares dynamic
type and value, which is exactly `DecidableEq` on this type. -/
inductive Value where
  | vInt : Int → Value
  | vStr : String → Value
  | vTime : Int → Value
deriving DecidableEq, Repr

/-- `Field`: one schema column. -/
structure Field where
  name : String
  ftype : FieldType
  nullable : Bool
  defaultValue : Option Value
deriving DecidableEq, Repr

/-- `Schema` (value part; the reference semantics of its `Properties` map
and `Constraints` slice is modelled separately for the defensive-copy
claim). -/
structure Schema where
  id : Int
  version : Int
  fields : List Field
  createdAt : Int
deriving DecidableEq, Repr

/-- `ConstraintType` string constants. -/
inductive ConstraintType where
  | notNull | unique | primaryKey | foreignKey | check | range | regex
deriving DecidableEq, Repr

/-- `Constraint`: a named data-quality rule. -/
structure Constraint where
  name : String
  ctype : ConstraintType
  expression : String
  columns : List String
  enabled : Bool
  createdAt : Int
deriving DecidableEq, Repr

/-- `OperationType` string constants. -/
inductive OperationType where
  | write | del | schema | optimize | vacuum | restore | clone
deriving DecidableEq, Repr

/-- `Operation`: one logged sub-operation of a version/transaction.  The
`Details` map carries only diagnostic strings and is not observed by any
claim, so it is omitted. -/
structure Operation where
  otype : OperationType
  timestamp : Int
deriving DecidableEq, Repr

/-- `Version`: one entry of the version log.

The Go struct field `ParentID` is a `*int64`.  Every assignment to it in
the source stores `&d.currentVersion` — a pointer INTO the repository
struct — so the id read through it later is whatever `d.currentVersion`
holds at observation time.  `parentPtr = true` models such a set pointer
and `parentPtr = false` models a nil `ParentID`. -/
structure Version where
  id : Int
  timestamp : Int
  description : String
  schemaId : Int
  recordCount : Int
  operations : List Operation
  parentPtr : Bool
deriving DecidableEq, Repr

/-- `ChangeType` string constants. -/
inductive ChangeType where
  | insert | update | del | schemaChange | optimize
deriving DecidableEq, Repr

/-- `ChangeEvent`: one entry of the change feed. -/
structure ChangeEvent where
  ctype : ChangeType
  timestamp : Int
  version : Int
  recordId : Option Int
deriving DecidableEq, Repr

/-- Names of the JSON data files the engine reads and writes under its
base path.  `partFile v` is `part-%05d-%05d.json` (with both counters
equal to `v`, as in `saveVersionData`/`getAllFromFiles`) and
`versionFile v` is `version_%d.json` (as read by `GetByVersion`).  The
two string families are disjoint, hence two constructors. -/
inductive FileName where
  | partFile : Int → FileName
  | versionFile : Int → FileName
deriving DecidableEq, Repr

/-- `Conflict` entries are appended by no code path and only their count
is ever read (in `CommitTransaction`). -/
structure Conflict where
deriving DecidableEq, Repr

/-- `deltaTransaction`: an in-flight transaction.  The time-based `id`
string and `startTime` are not observed by any claim and are omitted. -/
structure DTx where
  isolationReadCommitted : Bool
  operations : List Operation
  readVersion : Int
  conflicts : List Conflict
  isActive : Bool
  pendingWrites : List Exercise
  pendingDeletes : List Int
deriving DecidableEq, Repr

/-- The mutable state of a `DeltaLakeRepository`.  The registry of open
transactions is omitted: transactions are passed explicitly and no claim
observes the registry. -/
structure Repo where
  currentVersion : Int
  currentSchema : Schema
  versions : List (Int × Version)
  constraints : List Constraint
  changeLog : List ChangeEvent
  files : List (FileName × List Exercise)
  metadataCurrentVersion : Int
  metadataRecordCount : Int
deriving DecidableEq, Repr

/-- The initial schema installed by `initializeTable` for a fresh table. -/
def initialSchema : Schema :=
  { id := 1
    version := 1
    fields :=
      [ { name := "id", ftype := .int, nullable := false, defaultValue := none }
      , { name := "name", ftype := .string, nullable := false, defaultValue := none }
      , { name := "type", ftype := .string, nullable := false, defaultValue := none }
      , { name := "duration", ftype := .int, nullable := false, defaultValue := none }
      , { name := "calories", ftype := .int, nullable := false, defaultValue := none }
      , { name := "date", ftype := .timestamp, nullable := false, defaultValue := none }
      , { name := "description", ftype := .string, nullable := true, defaultValue := none } ]
    createdAt := 0 }

/-- `initializeTable` on an empty base path: version 0 exists, no data
files, empty change feed, no constraints. -/
def initRepo : Repo :=
  { currentVersion := 0
    currentSchema := initialSchema
    versions :=
      [ (0, { id := 0, timestamp := 0, description := "Table created",
              schemaId := 1, recordCount := 0, operations := [],
              parentPtr := false }) ]
    constraints := []
    changeLog := []
    files := []
    metadataCurrentVersion := 0
    metadataRecordCount := 0 }

/-! ### File-level record access -/

/-- `getAllFromFiles`: read the current snapshot from the part file named
after `currentVersion`; a missing file yields the empty record set. -/
def getAllFromFiles (s : Repo) : List Exercise :=
  match mget (FileName.partFile s.currentVersion) s.files with
  | none => []
  | some xs => xs

/-- `saveVersionData`: write the record list as the part file of the given
version (whole-file overwrite). -/
def saveVersionData (s : Repo) (v : Int) (xs : List Exercise) : Repo :=
  { s with files := mset (FileName.partFile v) xs s.files }

/-- `GetByVersion`: error if the version is absent from the version index,
otherwise read the file `version_%d.json` for that version. -/
def getByVersion (s : Repo) (v : Int) : Except String (List Exercise) :=
  if (mget v s.versions).isNone then
    .error ("version " ++ toString v ++ " does not exist")
  else
    match mget (FileName.versionFile v) s.files with
    | none => .error ("failed to read version " ++ toString v ++ " data")
    | some xs => .ok xs

/-! ### Transactions -/

/-- `BeginTransaction`: a fresh active transaction that snapshots the
current version as its read version. -/
def beginTransaction (s : Repo) : DTx :=
  { isolationReadCommitted := true
    operations := []
    readVersion := s.currentVersion
    conflicts := []
    isActive := true
    pendingWrites := []
    pendingDeletes := [] }

/-- `deltaTransaction.Insert`: buffer a pending write and log a write
operation; fails on a terminal transaction. -/
def txInsert (tx : DTx) (e : Exercise) (t : Int) : DTx × Option String :=
  if tx.isActive = false then (tx, some "transaction is not active")
  else
    ({ tx with pendingWrites := tx.pendingWrites ++ [e]
               operations := tx.operations ++ [{ otype := .write, timestamp := t }] },
     none)

/-- `deltaTransaction.Update`: identical buffering to `Insert` (the
record, keyed by its id, is applied as an upsert at commit). -/
def txUpdate (tx : DTx) (e : Exercise) (t : Int) : DTx × Option String :=
  if tx.isActive = false then (tx, some "transaction is not active")
  else
    ({ tx with pendingWrites := tx.pendingWrites ++ [e]
               operations := tx.operations ++ [{ otype := .write, timestamp := t }] },
     none)

/-- `deltaTransaction.Delete`: buffer a pending delete by id. -/
def txDelete (tx : DTx) (i : Int) (t : Int) : DTx × Option String :=
  if tx.isActive = false then (tx, some "transaction is not active")
  else
    ({ tx with pendingDeletes := tx.pendingDeletes ++ [i]
               operations := tx.operations ++ [{ otype := .del, timestamp := t }] },
     none)

/-- `getNextID`: one more than the maximum id in the given records. -/
def getNextID (exercises : List Exercise) : Int :=
  (exercises.foldl (fun m e => if m < e.id then e.id else m) 0) + 1

/-- The insert-and-update loop of `applyTransactionChanges`: records with
id 0 receive the next available id, assigned sequentially in submission
order; all writes are upserts into the record map. -/
def applyWrites : List (Int × Exercise) → List Exercise → Int →
    List (Int × Exercise)
  | m, [], _ => m
  | m, e :: rest, nextID =>
    if e.id = 0 then
      applyWrites (mset nextID { e with id := nextID } m) rest (nextID + 1)
    else
      applyWrites (mset e.id e m) rest nextID

/-- `applyTransactionChanges`: read the current snapshot, apply pending
deletes then pending writes over a map keyed by record id, and save the
result as the part file of `currentVersion + 1`.  The Go code converts
the map back to a slice in unspecified map-iteration order; the model
uses the association-list order. -/
def applyTransactionChanges (s : Repo) (tx : DTx) : Repo :=
  let exercises := getAllFromFiles s
  let m0 := exercises.foldl (fun m e => mset e.id e m) []
  let m1 := tx.pendingDeletes.foldl (fun m i => mdel i m) m0
  let m2 := applyWrites m1 tx.pendingWrites (getNextID exercises)
  let newExercises := m2.map (fun p => p.2)
  let s1 := saveVersionData s (s.currentVersion + 1) newExercises
  { s1 with metadataRecordCount := newExercises.length }

/-- `CommitTransaction`: guard on activity and conflicts, apply the
pending changes, then create the new `Version` record.  Note that the
constructed `Version` sets only `ID`, `Timestamp`, `Description`,
`SchemaID` and `Operations`; `ParentID` is left at its zero value (nil)
and nothing is appended to the change feed. -/
def commitTransaction (s : Repo) (tx : DTx) (t : Int) : Repo × Option String :=
  if tx.isActive = false then (s, some "transaction is not active")
  else if 0 < tx.conflicts.length then
    (s, some "transaction has conflicts and cannot be committed")
  else
    let s1 := applyTransactionChanges s tx
    let newVersion := s1.currentVersion + 1
    let ver : Version :=
      { id := newVersion
        timestamp := t
        description := "Transaction committed"
        schemaId := s1.currentSchema.id
        recordCount := 0
        operations := tx.operations
        parentPtr := false }
    ({ s1 with currentVersion := newVersion
               versions := mset newVersion ver s1.versions },
     none)

/-- The id a set `ParentID` pointer reads as, given the repository state
at observation time (all set sites store `&d.currentVersion`). -/
def observedParentId (s : Repo) (v : Version) : Option Int :=
  if v.parentPtr then some s.currentVersion else none

/-- `Update` on the repository: begin, buffer the single write, commit. -/
def updateRecord (s : Repo) (e : Exercise) (t : Int) : Repo × Option String :=
  let tx := beginTransaction s
  match txUpdate tx e t with
  | (_, some msg) => (s, some ("failed to update exercise: " ++ msg))
  | (tx1, none) => commitTransaction s tx1 t

/-- `CreateVersion`: snapshot the current records under the next version
id, link the parent (as a pointer to `currentVersion`), advance the
current version and the metadata pointer. -/
def createVersion (s : Repo) (description : String) (t : Int) :
    Version × Repo :=
  let exercises := getAllFromFiles s
  let newVersionID := s.currentVersion + 1
  let s1 := saveVersionData s newVersionID exercises
  let ver : Version :=
    { id := newVersionID
      timestamp := t
      description := description
      schemaId := s.currentSchema.id
      recordCount := exercises.length
      operations := []
      parentPtr := true }
  (ver,
   { s1 with versions := mset newVersionID ver s1.versions
             currentVersion := newVersionID
             metadataCurrentVersion := newVersionID })

/-! ### Time travel by timestamp -/

/-- The selection loop of `GetByTimestamp` over the versions map: keep
the version whose timestamp is `≤ ts` and strictly greater than the best
seen so far (`Before || Equal` then `After`), starting from the sentinel
target `-1`.  The list order models Go's unspecified map-iteration
order. -/
def selectLoop (ts : Int) : List (Int × Version) → Int → Int → Int
  | [], target, _ => target
  | (v, info) :: rest, target, closest =>
    if info.timestamp ≤ ts then
      if target = -1 ∨ closest < info.timestamp then
        selectLoop ts rest v info.timestamp
      else selectLoop ts rest target closest
    else selectLoop ts rest target closest

/-- The version id `GetByTimestamp` selects (or `-1` for none). -/
def selectVersionByTimestamp (versions : List (Int × Version)) (ts : Int) :
    Int :=
  selectLoop ts versions (-1) 0

/-- `GetByTimestamp`: select the target version; if none qualifies return
the empty record set without error, otherwise delegate to
`GetByVersion`. -/
def getByTimestamp (s : Repo) (ts : Int) : Except String (List Exercise) :=
  let target := selectVersionByTimestamp s.versions ts
  if target = -1 then .ok [] else getByVersion s target

/-! ### Change feed -/

/-- `GetChangelog`: inclusive version-range filter over the change feed. -/
def getChangelog (s : Repo) (fromVersion toVersion : Int) :
    List ChangeEvent :=
  s.changeLog.filter
    (fun c => decide (fromVersion ≤ c.version ∧ c.version ≤ toVersion))

/-! ### Schema registry -/

/-- `isTypeCompatible`: identical types are compatible, otherwise the
transition must appear in the fixed allow-list (int→float/string,
float→string, date→timestamp/string). -/
def isTypeCompatible (o n : FieldType) : Bool :=
  if o = n then true
  else
    match o, n with
    | .int, .float => true
    | .int, .string => true
    | .float, .string => true
    | .date, .timestamp => true
    | .date, .string => true
    | _, _ => false

/-- The per-field loop of `validateSchemaCompatibilityInternal`: the
first violating field aborts with its error. -/
def validateFieldsAgainst (currentFields : List (String × Field)) :
    List Field → Option String
  | [] => none
  | f :: rest =>
    match mget f.name currentFields with
    | some currentField =>
      if isTypeCompatible currentField.ftype f.ftype = false then
        some ("field " ++ f.name ++ " type change is not compatible")
      else if currentField.nullable = true ∧ f.nullable = false then
        some ("field " ++ f.name ++ " cannot change from nullable to non-nullable")
      else validateFieldsAgainst currentFields rest
    | none =>
      if f.nullable = false ∧ f.defaultValue = none then
        some ("new field " ++ f.name ++ " must be nullable or have a default value")
      else validateFieldsAgainst currentFields rest

/-- The `currentFields` map built by ranging over the current schema's
fields (later duplicates overwrite earlier ones). -/
def buildFieldMap (fields : List Field) : List (String × Field) :=
  fields.foldl (fun m f => mset f.name f m) []

/-- `validateSchemaCompatibilityInternal`. -/
def validateSchemaCompatibilityInternal (s : Repo) (ns : Schema) :
    Option String :=
  validateFieldsAgainst (buildFieldMap s.currentSchema.fields) ns.fields

/-- `GetCurrentSchema`, value part: the current schema (the partial deep
copy of the Go code is modelled at reference level separately). -/
def getCurrentSchema (s : Repo) : Schema := s.currentSchema

/-- `EvolveSchema`: validate first; on failure return the error with the
state untouched (the source mutates nothing before the validation check).
On success bump schema id and version, wrap the schema `Operation` in a
new `Version` whose `ParentID` points at `currentVersion` (taken AFTER
the increment), and advance the version counters. -/
def evolveSchema (s : Repo) (ns : Schema) (t : Int) : Repo × Option String :=
  match validateSchemaCompatibilityInternal s ns with
  | some msg => (s, some ("schema is not compatible: " ++ msg))
  | none =>
    let ns1 : Schema :=
      { ns with id := s.currentSchema.id + 1
                version := s.currentSchema.version + 1
                createdAt := t }
    let newVersion := s.currentVersion + 1
    let ver : Version :=
      { id := newVersion
        timestamp := t
        description := "Schema evolved"
        schemaId := ns1.id
        recordCount := 0
        operations := [{ otype := .schema, timestamp := t }]
        parentPtr := true }
    ({ s with currentSchema := ns1
              currentVersion := newVersion
              versions := mset newVersion ver s.versions
              metadataCurrentVersion := newVersion },
     none)

/-! ### Constraint engine -/

/-- The column loop of `validateNotNull`. -/
def notNullLoop (c : Constraint) (e : Exercise) : List String → Option String
  | [] => none
  | col :: rest =>
    if col = "name" then
      if e.name = "" then some "name cannot be null" else notNullLoop c e rest
    else if col = "type" then
      if e.etype = "" then some "type cannot be null" else notNullLoop c e rest
    else if col = "description" then
      if e.description = "" ∧ c.columns.length = 1 then
        some "description cannot be null"
      else notNullLoop c e rest
    else notNullLoop c e rest

/-- The column loop of `validateRange` (fixed per-column numeric bounds). -/
def rangeLoop (e : Exercise) : List String → Option String
  | [] => none
  | col :: rest =>
    if col = "duration" then
      if e.duration < 0 ∨ 1440 < e.duration then
        some "duration must be between 0 and 1440 minutes"
      else rangeLoop e rest
    else if col = "calories" then
      if e.calories < 0 ∨ 10000 < e.calories then
        some "calories must be between 0 and 10000"
      else rangeLoop e rest
    else rangeLoop e rest

/-- `validateCheck`: only the one recognized expression string is
evaluated; anything else is a no-op. -/
def validateCheck (c : Constraint) (e : Exercise) : Option String :=
  if c.expression = "type IN ('cardio', 'strength', 'flexibility')" then
    if e.etype = "cardio" ∨ e.etype = "strength" ∨ e.etype = "flexibility" then
      none
    else some ("invalid exercise type: " ++ e.etype)
  else none

/-- `validateConstraint`: dispatch on the constraint type. -/
def validateConstraint (c : Constraint) (e : Exercise) : Option String :=
  match c.ctype with
  | .notNull => notNullLoop c e c.columns
  | .range => rangeLoop e c.columns
  | .check => validateCheck c e
  | _ => some "unsupported constraint type"

/-- Inner record loop of `ValidateConstraints`: first violation aborts,
wrapped with the offending constraint's name. -/
def constraintRecordLoop (c : Constraint) : List Exercise → Option String
  | [] => none
  | e :: rest =>
    match validateConstraint c e with
    | some msg => some ("constraint " ++ c.name ++ " violated: " ++ msg)
    | none => constraintRecordLoop c rest

/-- Outer constraint loop of `ValidateConstraints`: disabled constraints
are skipped. -/
def constraintLoop (exercises : List Exercise) :
    List Constraint → Option String
  | [] => none
  | c :: rest =>
    if c.enabled = true then
      match constraintRecordLoop c exercises with
      | some msg => some msg
      | none => constraintLoop exercises rest
    else constraintLoop exercises rest

/-- `ValidateConstraints`. -/
def validateConstraints (s : Repo) (exercises : List Exercise) :
    Option String :=
  constraintLoop exercises s.constraints

/-! ### Query/filter engine -/

/-- `Operator` string constants. -/
inductive Operator where
  | eq | ne | gt | gte | lt | lte | opIn | notIn | like | notLike
  | isNull | isNotNull | between
deriving DecidableEq, Repr

/-- `Condition`: one filter condition (`Value` is `interface{}`). -/
structure Condition where
  field : String
  op : Operator
  value : Value
deriving DecidableEq, Repr

/-- `SortOrder` string constants. -/
inductive SortOrder where
  | asc | desc
deriving DecidableEq, Repr

/-- `SortField`. -/
structure SortField where
  field : String
  order : SortOrder
deriving DecidableEq, Repr

/-- `Filter`.  The `GroupBy` and `Having` fields are never read by the
engine and are omitted. -/
structure Filter where
  conditions : List Condition
  sortBy : List SortField
  limit : Option Int
  offset : Option Int
deriving DecidableEq, Repr

/-- The field-name switch of `matchesCondition`: the dynamic value of the
named record field, or `none` for an unknown field (the Go code returns
false immediately in that case). -/
def conditionFieldValue (e : Exercise) : String → Option Value
  | "id" => some (.vInt e.id)
  | "name" => some (.vStr e.name)
  | "type" => some (.vStr e.etype)
  | "duration" => some (.vInt e.duration)
  | "calories" => some (.vInt e.calories)
  | "date" => some (.vTime e.date)
  | "description" => some (.vStr e.description)
  | _ => none

/-- The helper `contains`: despite its name it is a prefix test
(`len(str) >= len(pattern) && str[:len(pattern)] == pattern`). -/
def contains (str pat : String) : Bool :=
  pat.isPrefixOf str

/-- `matchesCondition`: resolve the field, then dispatch on the operator.
Equality and inequality use Go dynamic-value equality; greater-than fires
only for int field and int condition value; `like` only for string field
and string value; every other operator (and any type mismatch) falls
through to false. -/
def matchesCondition (e : Exercise) (c : Condition) : Bool :=
  match conditionFieldValue e c.field with
  | none => false
  | some fieldValue =>
    match c.op with
    | .eq => decide (fieldValue = c.value)
    | .ne => decide (¬(fieldValue = c.value))
    | .gt =>
      match fieldValue, c.value with
      | .vInt intVal, .vInt targetVal => decide (targetVal < intVal)
      | _, _ => false
    | .like =>
      match fieldValue, c.value with
      | .vStr strVal, .vStr pattern => contains strVal pattern
      | _, _ => false
    | _ => false

/-- `matchesFilter`: conditions are AND-combined. -/
def matchesFilter (e : Exercise) (f : Filter) : Bool :=
  f.conditions.all (fun c => matchesCondition e c)

/-- The `fmt.Sprintf("%v", x)` rendering the sort comparator compares.
Integers render as their decimal form, strings as themselves; a
`time.Time` renders in Go as a formatted date string — here its instant
is rendered numerically, which no verified claim observes, since none
depends on the relative order of sorted elements. -/
def render : Value → String
  | .vInt n => toString n
  | .vStr s => s
  | .vTime t => toString t

/-- The field switch of the sort comparator (note: no `description`
case; the default makes the comparator constantly false). -/
def sortValue (e : Exercise) : String → Option Value
  | "id" => some (.vInt e.id)
  | "name" => some (.vStr e.name)
  | "type" => some (.vStr e.etype)
  | "duration" => some (.vInt e.duration)
  | "calories" => some (.vInt e.calories)
  | "date" => some (.vTime e.date)
  | _ => none

/-- The `less` closure passed to `sort.Slice`, comparing rendered
strings, reversed for descending order. -/
def sortLess (f : SortField) (a b : Exercise) : Bool :=
  match sortValue a f.field, sortValue b f.field with
  | some l, some r =>
    if f.order = .desc then decide (render r < render l)
    else decide (render l < render r)
  | _, _ => false

/-- Insertion step of the model sort. -/
def insertBy {α : Type} (le : α → α → Bool) (a : α) : List α → List α
  | [] => [a]
  | b :: rest => if le a b then a :: b :: rest else b :: insertBy le a rest

/-- Model of `sort.Slice` (an unstable sort): insertion sort by the given
comparator — any comparison sort is an admissible model since `sort.Slice`
guarantees only a sorted permutation. -/
def sortSlice {α : Type} (le : α → α → Bool) : List α → List α
  | [] => []
  | a :: rest => insertBy le a (sortSlice le rest)

/-- `applySorting`: no sort fields means no reordering; otherwise sort by
the first field only. -/
def applySorting (exercises : List Exercise) :
    List SortField → List Exercise
  | [] => exercises
  | f :: _ => sortSlice (fun a b => sortLess f a b) exercises

/-- Go slice expression `xs[lo:hi]`: defined when `0 ≤ lo ≤ hi ≤ len`,
a bounds panic (modelled as `none`) otherwise. -/
def goSlice {α : Type} (xs : List α) (lo hi : Int) : Option (List α) :=
  if 0 ≤ lo ∧ lo ≤ hi ∧ hi ≤ (xs.length : Int) then
    some ((xs.drop lo.toNat).take (hi - lo).toNat)
  else none

/-- `applyPagination`: start at the offset (0 when absent); an offset at
or past the length short-circuits to the empty page; otherwise the end is
the length, clamped to `start + limit` when a limit is present, and the
function evaluates the slice expression `exercises[start:end]`. -/
def applyPagination (exercises : List Exercise)
    (limit offset : Option Int) : Option (List Exercise) :=
  let start := match offset with
    | some o => o
    | none => 0
  if (exercises.length : Int) ≤ start then some []
  else
    let stop := match limit with
      | some l =>
        if (exercises.length : Int) < start + l then (exercises.length : Int)
        else start + l
      | none => (exercises.length : Int)
    goSlice exercises start stop

/-- `QueryWithFilter`: full scan of the current snapshot filtered by the
conditions, then sorting, then pagination.  `none` models the bounds
panic pagination can raise. -/
def queryWithFilter (s : Repo) (f : Filter) : Option (List Exercise) :=
  let result := (getAllFromFiles s).filter (fun e => matchesFilter e f)
  let sorted := applySorting result f.sortBy
  applyPagination sorted f.limit f.offset

/-- Modelled from the spec (§4.5): a record satisfies a condition iff
the operator is one of equals / not-equals / greater-than / prefix-like
applied to the named field; any operator/field combination outside this
set is "no match".  Written from the spec's words, to be compared with
the source-derived `matchesCondition`. -/
def specCondition (e : Exercise) (c : Condition) : Bool :=
  match c.op with
  | .eq =>
    match conditionFieldValue e c.field with
    | some fv => decide (fv = c.value)
    | none => false
  | .ne =>
    match conditionFieldValue e c.field with
    | some fv => decide (fv ≠ c.value)
    | none => false
  | .gt =>
    match conditionFieldValue e c.field, c.value with
    | some (.vInt a), .vInt b => decide (b < a)
    | _, _ => false
  | .like =>
    match conditionFieldValue e c.field, c.value with
    | some (.vStr str), .vStr pat => pat.isPrefixOf str
    | _, _ => false
  | _ => false

/-! ### Reference-level model of `GetCurrentSchema`'s copy

Go maps and slices are references.  `GetCurrentSchema` copies the schema
struct, re-allocates and copies only the `Fields` slice, and returns the
result — so the returned schema shares the `Properties` map and the
`Constraints` slice with the engine's current schema.  This small heap
model makes that sharing explicit. -/

/-- A schema whose slice/map-typed fields are heap references. -/
structure SchemaObj where
  id : Int
  version : Int
  fieldsRef : Nat
  propsRef : Nat
  constraintsRef : Nat
deriving DecidableEq, Repr

/-- The heap holding field slices, property maps and constraint slices. -/
structure SchemaHeap where
  fieldSlices : List (Nat × List Field)
  propMaps : List (Nat × List (String × String))
  constraintSlices : List (Nat × List Constraint)
  nextRef : Nat
deriving DecidableEq, Repr

/-- `GetCurrentSchema` at reference level: shallow struct copy (all three
references copied), then `Fields` re-pointed at a freshly allocated slice
with the same contents.  `Properties` and `Constraints` keep pointing at
the engine's own map and slice. -/
def getCurrentSchemaObj (h : SchemaHeap) (s : SchemaObj) :
    SchemaObj × SchemaHeap :=
  let fields := (mget s.fieldsRef h.fieldSlices).getD []
  ({ s with fieldsRef := h.nextRef },
   { h with fieldSlices := mset h.nextRef fields h.fieldSlices
            nextRef := h.nextRef + 1 })

/-- A caller mutating the `Properties` map of a schema value it holds:
`schema.Properties[k] = v`. -/
def writeProp (h : SchemaHeap) (r : Nat) (k v : String) : SchemaHeap :=
  let m := (mget r h.propMaps).getD []
  { h with propMaps := mset r (mset k v m) h.propMaps }

/-- The engine-side observation of a schema's properties. -/
def readProps (h : SchemaHeap) (s : SchemaObj) : List (String × String) :=
  (mget s.propsRef h.propMaps).getD []

/-! ### Concrete demonstration inputs -/

/-- True when no `version_%d.json` file exists in the store.  No code
path of the repository ever writes such a file, so this holds for every
reachable state. -/
def noVersionFiles (fs : List (FileName × List Exercise)) : Bool :=
  fs.all (fun p =>
    match p.1 with
    | .versionFile _ => false
    | _ => true)

/-- A well-formed sample record. -/
def demoExercise : Exercise :=
  { id := 1, name := "Morning Run", etype := "cardio", duration := 30,
    calories := 300, date := 10, description := "easy pace" }

/-- The record of the spec's constraint scenario: duration −5. -/
def badExercise : Exercise := { demoExercise with duration := -5 }

/-- The `positive_duration` range constraint of the spec scenario. -/
def posDurationConstraint : Constraint :=
  { name := "positive_duration", ctype := .range, expression := "",
    columns := ["duration"], enabled := true, createdAt := 0 }

/-- A fresh table that has the `positive_duration` constraint added. -/
def c4Repo : Repo := { initRepo with constraints := [posDurationConstraint] }

/-- A transaction holding the single pending insert of `badExercise`. -/
def c4Tx : DTx := (txInsert (beginTransaction c4Repo) badExercise 1).1

/-- A version-log entry with the given id and timestamp. -/
def mkVer (i ts : Int) : Version :=
  { id := i, timestamp := ts, description := "", schemaId := 1,
    recordCount := 0, operations := [], parentPtr := false }

/-- Two versions sharing a timestamp, in one admissible map-iteration
order (the lower id first). -/
def tieVersions : List (Int × Version) := [(1, mkVer 1 5), (2, mkVer 2 5)]

/-- A repository with two comparable versions for the time-travel
witness. -/
def c6Repo : Repo :=
  { initRepo with versions := [(1, mkVer 1 5), (2, mkVer 2 7)] }

/-- Heap for the defensive-copy demonstration: the engine schema's
fields live at reference 1, its properties map (`{owner: alice}`) at
reference 0 and its constraints slice at reference 2. -/
def c8Heap : SchemaHeap :=
  { fieldSlices := [(1, initialSchema.fields)]
    propMaps := [(0, [("owner", "alice")])]
    constraintSlices := [(2, [])]
    nextRef := 3 }

/-- The engine's current-schema object for the defensive-copy
demonstration. -/
def c8SchemaObj : SchemaObj :=
  { id := 1, version := 1, fieldsRef := 1, propsRef := 0,
    constraintsRef := 2 }

/-- A repository whose current snapshot holds one record. -/
def oneRecordRepo : Repo :=
  { initRepo with files := [(FileName.partFile 0, [demoExercise])] }

/-- The `intensity` field rejected by schema evolution: new,
non-nullable and without a default. -/
def intensityField : Field :=
  { name := "intensity", ftype := .int, nullable := false,
    defaultValue := none }

/-- A proposed schema adding `intensity` as non-nullable without a
default. -/
def badNewSchema : Schema :=
  { id := 0, version := 0, fields := initialSchema.fields ++ [intensityField],
    createdAt := 0 }

/-! ## Map lemmas -/

theorem mget_mset_self {κ α : Type} [DecidableEq κ] (k : κ) (v : α)
    (m : List (κ × α)) : mget k (mset k v m) = some v := by
  simp [mget, mset]

theorem mget_cancel_filter {κ α : Type} [DecidableEq κ] (k : κ)
    (q : κ × α → Bool) (m : List (κ × α)) (h : mget k m = none) :
    mget k (m.filter q) = none := by
  induction m with
  | nil => simp [mget]
  | cons p rest ih =>
    rw [mget] at h
    by_cases hp : p.1 = k
    · simp [hp] at h
    · rw [if_neg hp] at h
      rw [List.filter]
      cases q p with
      | true => rw [mget, if_neg hp]; exact ih h
      | false => exact ih h

theorem mget_mset_none {κ α : Type} [DecidableEq κ] {k k' : κ} (v : α)
    (m : List (κ × α)) (hne : ¬(k = k')) (h : mget k' m = none) :
    mget k' (mset k v m) = none := by
  rw [mset, mget, if_neg hne]
  exact mget_cancel_filter k' _ m h

/-! ## Claim C4 -/

/-- C4: the claim says that with the enabled range constraint
`positive_duration` on column `duration`, committing a transaction whose
pending writes contain a record with duration −5 fails with a validation
error naming `positive_duration`, and that no new version is created.
The code disagrees: `CommitTransaction` never invokes
`ValidateConstraints`, so the commit returns no error, advances the
current version and registers a new version — even though the constraint
engine itself, had it been consulted, would have rejected the record with
an error naming `positive_duration` (last conjunct). -/
theorem commit_ignores_constraints :
    (commitTransaction c4Repo c4Tx 1).2 = none ∧
    (commitTransaction c4Repo c4Tx 1).1.currentVersion =
      c4Repo.currentVersion + 1 ∧
    (mget (c4Repo.currentVersion + 1)
      (commitTransaction c4Repo c4Tx 1).1.versions).isSome = true ∧
    validateConstraints c4Repo [badExercise] =
      some ("constraint positive_duration violated: " ++
        "duration must be between 0 and 1440 minutes") := by
  decide

/-! ## Claim C8 -/

/-- C8: the claim says `getCurrentSchema` returns a defensive copy, so
that no mutation of the returned value (its Fields, Properties or
Constraints included) affects the engine's stored schema.  The code
copies only the `Fields` slice; the returned schema shares the
`Properties` map and `Constraints` slice references with the engine's
schema (conjuncts 3 and 4), so writing `owner ↦ bob` through the
returned copy's properties changes what the engine observes from
`alice` to `bob` (conjuncts 1 and 2).  Only `Fields` is re-allocated
(conjunct 5). -/
theorem getCurrentSchema_copy_shares_properties :
    readProps
      (writeProp (getCurrentSchemaObj c8Heap c8SchemaObj).2
        (getCurrentSchemaObj c8Heap c8SchemaObj).1.propsRef "owner" "bob")
      c8SchemaObj = [("owner", "bob")] ∧
    readProps c8Heap c8SchemaObj = [("owner", "alice")] ∧
    (getCurrentSchemaObj c8Heap c8SchemaObj).1.propsRef =
      c8SchemaObj.propsRef ∧
    (getCurrentSchemaObj c8Heap c8SchemaObj).1.constraintsRef =
      c8SchemaObj.constraintsRef ∧
    (getCurrentSchemaObj c8Heap c8SchemaObj).1.fieldsRef ≠
      c8SchemaObj.fieldsRef := by
  decide

/-! ## Claim C6 -/

/-- C6, counterexample to the tie-break clause: the claim says
`getByTimestamp` chooses the highest version id among equal-timestamp
ties.  With versions 1 and 2 both stamped 5 and iterated in the order
`[1, 2]` — one admissible iteration order of the Go versions map — the
selection loop keeps version 1 (the strict `After` comparison never
replaces an equal timestamp), although the qualifying version 2 has the
higher id. -/
theorem getByTimestamp_tiebreak_counterexample :
    selectVersionByTimestamp tieVersions 5 = 1 ∧
    (2, mkVer 2 5) ∈ tieVersions ∧ (mkVer 2 5).timestamp ≤ 5 ∧
    ¬(selectVersionByTimestamp tieVersions 5 = 2) := by
  decide

/-! ## Claim C1 -/

/-- Structural helper: applying a transaction's pending changes touches
only the file store and the record-count metadata. -/
theorem applyTransactionChanges_currentVersion (s : Repo) (tx : DTx) :
    (applyTransactionChanges s tx).currentVersion = s.currentVersion := rfl

/-- C1: the claim says every committed mutating operation starting from
version `v` creates a Version with id `v + 1` whose parent id is `v`.
The id half holds, but `CommitTransaction` leaves the new Version's
`ParentID` at nil (and `EvolveSchema` stores `&d.currentVersion` after
incrementing it, so its observed parent id is `v + 1`, never `v`): no
committed transaction ever records the prior version as its parent. -/
theorem commit_creates_version_with_nil_parent (s : Repo) (tx : DTx)
    (t : Int) (s' : Repo) (h : commitTransaction s tx t = (s', none)) :
    ∃ ver, mget (s.currentVersion + 1) s'.versions = some ver ∧
      ver.id = s.currentVersion + 1 ∧ ver.parentPtr = false ∧
      observedParentId s' ver = none := by
  simp only [commitTransaction] at h
  by_cases h1 : tx.isActive = false
  · rw [if_pos h1] at h
    exact absurd (congrArg Prod.snd h) (by simp)
  · rw [if_neg h1] at h
    by_cases h2 : 0 < tx.conflicts.length
    · rw [if_pos h2] at h
      exact absurd (congrArg Prod.snd h) (by simp)
    · rw [if_neg h2] at h
      have hs := congrArg Prod.fst h
      simp only at hs
      subst hs
      exact ⟨_, mget_mset_self _ _ _, rfl, rfl, rfl⟩

/-- Witness for C1: committing an (empty) transaction on the fresh table
creates version 1 with a nil parent pointer. -/
theorem commit_creates_version_with_nil_parent_witness :
    ∃ ver, mget (initRepo.currentVersion + 1)
        ((commitTransaction initRepo (beginTransaction initRepo) 1).1).versions
        = some ver ∧
      ver.id = initRepo.currentVersion + 1 ∧ ver.parentPtr = false ∧
      observedParentId
        (commitTransaction initRepo (beginTransaction initRepo) 1).1 ver
        = none :=
  commit_creates_version_with_nil_parent initRepo (beginTransaction initRepo)
    1 ((commitTransaction initRepo (beginTransaction initRepo) 1).1)
    (by decide)

/-! ## Claim C2 -/

/-- C2: the claim says every successfully committed transaction appends
one ChangeEvent per applied write and delete before the commit returns,
so that `getChangelog` over a range containing the commit returns those
events.  The code appends nothing: no code path in the repository ever
writes to the change feed, so a successful commit leaves the feed
unchanged and `getChangelog` returns exactly what it returned before the
commit (the empty list, on any table since initialization). -/
theorem commit_appends_no_change_events (s : Repo) (tx : DTx)
    (t a b : Int) (s' : Repo) (h : commitTransaction s tx t = (s', none)) :
    s'.changeLog = s.changeLog ∧ getChangelog s' a b = getChangelog s a b := by
  simp only [commitTransaction] at h
  by_cases h1 : tx.isActive = false
  · rw [if_pos h1] at h
    exact absurd (congrArg Prod.snd h) (by simp)
  · rw [if_neg h1] at h
    by_cases h2 : 0 < tx.conflicts.length
    · rw [if_pos h2] at h
      exact absurd (congrArg Prod.snd h) (by simp)
    · rw [if_neg h2] at h
      have hs := congrArg Prod.fst h
      simp only at hs
      subst hs
      exact ⟨rfl, rfl⟩

/-- Witness for C2: committing a transaction carrying one pending insert
on the fresh table leaves the change feed empty, so the changelog over
the range [0, 5] (which contains the new version 1) is empty. -/
theorem commit_appends_no_change_events_witness :
    ((commitTransaction initRepo
        ((txInsert (beginTransaction initRepo) demoExercise 1).1) 1).1).changeLog
      = initRepo.changeLog ∧
    getChangelog
      (commitTransaction initRepo
        ((txInsert (beginTransaction initRepo) demoExercise 1).1) 1).1 0 5
      = getChangelog initRepo 0 5 :=
  commit_appends_no_change_events initRepo
    ((txInsert (beginTransaction initRepo) demoExercise 1).1) 1 0 5
    ((commitTransaction initRepo
        ((txInsert (beginTransaction initRepo) demoExercise 1).1) 1).1)
    (by decide)

/-! ## Claim C3 -/

/-- No `version_%d.json` file can be found in a store without one. -/
theorem noVersionFiles_mget (fs : List (FileName × List Exercise))
    (h : noVersionFiles fs = true) (v : Int) :
    mget (FileName.versionFile v) fs = none := by
  induction fs with
  | nil => rfl
  | cons p rest ih =>
    rw [noVersionFiles, List.all_cons, Bool.and_eq_true] at h
    rw [mget]
    by_cases hp : p.1 = FileName.versionFile v
    · exfalso
      have h1 := h.1
      rw [hp] at h1
      simp at h1
    · rw [if_neg hp]
      exact ih h.2

/-- C3: the claim says `getByVersion(v)` right after creating version `v`
returns exactly the committed record set.  It cannot: `saveVersionData`
writes the snapshot under the name `part-%05d-%05d.json`, while
`GetByVersion` reads `version_%d.json`, a name no code path ever writes.
So on any state without stray `version_*.json` files (every reachable
state), `getByVersion` of the freshly created version fails with a read
error — even though the snapshot was saved, under the part-file name
(second conjunct). -/
theorem getByVersion_after_createVersion_errors (s : Repo) (d : String)
    (t : Int) (h : noVersionFiles s.files = true) :
    getByVersion (createVersion s d t).2 (createVersion s d t).1.id =
      .error ("failed to read version " ++ toString (s.currentVersion + 1)
        ++ " data") ∧
    mget (FileName.partFile (s.currentVersion + 1))
      ((createVersion s d t).2).files = some (getAllFromFiles s) := by
  have hm : mget ((createVersion s d t).1.id)
      ((createVersion s d t).2).versions = some (createVersion s d t).1 :=
    mget_mset_self _ _ _
  have hv : mget (FileName.versionFile (s.currentVersion + 1))
      ((createVersion s d t).2).files = none := by
    show mget _ (mset (FileName.partFile (s.currentVersion + 1)) _ s.files)
      = none
    exact mget_mset_none _ _ (by simp)
      (noVersionFiles_mget s.files h (s.currentVersion + 1))
  constructor
  · rw [getByVersion, hm]
    simp only [Option.isSome_some, Option.isNone_some, Bool.false_eq_true,
      if_false]
    have hv' : mget (FileName.versionFile ((createVersion s d t).1.id))
        ((createVersion s d t).2).files = none := hv
    rw [hv']
    rfl
  · exact mget_mset_self _ _ _

/-- Witness for C3: on the fresh table, `createVersion` makes version 1,
and `getByVersion 1` immediately fails with the read error. -/
theorem getByVersion_after_createVersion_errors_witness :
    getByVersion (createVersion initRepo "checkpoint" 3).2
        (createVersion initRepo "checkpoint" 3).1.id =
      .error ("failed to read version "
        ++ toString (initRepo.currentVersion + 1) ++ " data") ∧
    mget (FileName.partFile (initRepo.currentVersion + 1))
      ((createVersion initRepo "checkpoint" 3).2).files
      = some (getAllFromFiles initRepo) :=
  getByVersion_after_createVersion_errors initRepo "checkpoint" 3 (by decide)

/-! ## Claim C5 -/

/-- Folding map-inserts whose keys all differ from `nm` cannot make `nm`
present. -/
theorem foldl_mset_name_none (nm : String) :
    ∀ (fields : List Field) (acc : List (String × Field)),
    (∀ cf ∈ fields, ¬(cf.name = nm)) → mget nm acc = none →
    mget nm (fields.foldl (fun m f => mset f.name f m) acc) = none
  | [], _, _, hacc => hacc
  | f :: rest, acc, h, hacc => by
    rw [List.foldl_cons]
    exact foldl_mset_name_none nm rest _
      (fun cf hc => h cf (List.mem_cons_of_mem f hc))
      (mget_mset_none _ _ (h f (List.mem_cons_self f rest)) hacc)

/-- A field name appearing in none of the schema's fields is absent from
the `currentFields` map. -/
theorem buildFieldMap_none (fields : List Field) (nm : String)
    (h : ∀ cf ∈ fields, ¬(cf.name = nm)) :
    mget nm (buildFieldMap fields) = none :=
  foldl_mset_name_none nm fields [] h rfl

/-- If the proposed fields contain a new (absent), non-nullable field
without a default, the compatibility loop cannot return nil: either an
earlier field already errors, or this field's check fires. -/
theorem validateFieldsAgainst_ne_none (cm : List (String × Field))
    (f : Field) (hnone : mget f.name cm = none) (hnul : f.nullable = false)
    (hdef : f.defaultValue = none) :
    ∀ fields : List Field, f ∈ fields →
      validateFieldsAgainst cm fields ≠ none := by
  intro fields
  induction fields with
  | nil => intro hmem; cases hmem
  | cons g rest ih =>
    intro hmem
    rw [validateFieldsAgainst]
    rcases List.mem_cons.mp hmem with heq | hmem'
    · subst heq
      rw [hnone, if_pos ⟨hnul, hdef⟩]
      simp
    · cases hcm : mget g.name cm with
      | some cf =>
        dsimp only
        by_cases h1 : isTypeCompatible cf.ftype g.ftype = false
        · rw [if_pos h1]; simp
        · rw [if_neg h1]
          by_cases h2 : cf.nullable = true ∧ g.nullable = false
          · rw [if_pos h2]; simp
          · rw [if_neg h2]; exact ih hmem'
      | none =>
        dsimp only
        by_cases h3 : g.nullable = false ∧ g.defaultValue = none
        · rw [if_pos h3]; simp
        · rw [if_neg h3]; exact ih hmem'

/-- C5, confirmed: a proposed schema containing a field that is absent
from the current schema, non-nullable and without a default is rejected
by `evolveSchema` with an error, and the rejection is atomic — the
engine state, and in particular the schema observed through
`getCurrentSchema`, is exactly its pre-attempt value (the source
mutates nothing before the validation check). -/
theorem evolveSchema_rejects_atomically (s : Repo) (ns : Schema) (t : Int)
    (f : Field) (hmem : f ∈ ns.fields)
    (habsent : ∀ cf ∈ s.currentSchema.fields, ¬(cf.name = f.name))
    (hnul : f.nullable = false) (hdef : f.defaultValue = none) :
    (evolveSchema s ns t).1 = s ∧ (evolveSchema s ns t).2.isSome = true ∧
    getCurrentSchema (evolveSchema s ns t).1 = getCurrentSchema s := by
  have hnone : mget f.name (buildFieldMap s.currentSchema.fields) = none :=
    buildFieldMap_none s.currentSchema.fields f.name habsent
  have hval : validateSchemaCompatibilityInternal s ns ≠ none :=
    validateFieldsAgainst_ne_none _ f hnone hnul hdef ns.fields hmem
  obtain ⟨msg, hmsg⟩ := Option.ne_none_iff_exists'.mp hval
  rw [validateSchemaCompatibilityInternal] at hmsg
  simp only [evolveSchema, validateSchemaCompatibilityInternal, hmsg]
  exact ⟨trivial, rfl, trivial⟩

/-- Witness for C5: evolving the fresh table's schema to one that adds
`intensity` as non-nullable without a default is rejected and leaves the
state untouched. -/
theorem evolveSchema_rejects_atomically_witness :
    (evolveSchema initRepo badNewSchema 4).1 = initRepo ∧
    (evolveSchema initRepo badNewSchema 4).2.isSome = true ∧
    getCurrentSchema (evolveSchema initRepo badNewSchema 4).1 =
      getCurrentSchema initRepo :=
  evolveSchema_rejects_atomically initRepo badNewSchema 4 intensityField
    (by decide) (by decide) rfl rfl

/-- If no version qualifies, the selection loop keeps its target. -/
theorem selectLoop_no_qualifying (ts : Int) :
    ∀ (l : List (Int × Version)) (target closest : Int),
    (∀ p ∈ l, ¬(p.2.timestamp ≤ ts)) →
    selectLoop ts l target closest = target
  | [], _, _, _ => rfl
  | (v, info) :: rest, target, closest, h => by
    rw [selectLoop, if_neg (h (v, info) (List.mem_cons_self _ _))]
    exact selectLoop_no_qualifying ts rest target closest
      (fun p hp => h p (List.mem_cons_of_mem _ hp))

/-- Accumulator invariant of the selection loop once a target `v ≠ -1`
with best timestamp `c ≤ ts` is held: either the loop keeps `v` and every
qualifying timestamp in the remainder is at most `c`, or it returns an
element of the remainder whose timestamp qualifies, is at least `c`, and
bounds every qualifying timestamp of the remainder. -/
theorem selectLoop_started (ts : Int) :
    ∀ (l : List (Int × Version)) (v c : Int), ¬(v = -1) → c ≤ ts →
    (∀ p ∈ l, 0 ≤ p.1) →
    (selectLoop ts l v c = v ∧
      ∀ p ∈ l, p.2.timestamp ≤ ts → p.2.timestamp ≤ c) ∨
    (∃ info, (selectLoop ts l v c, info) ∈ l ∧ info.timestamp ≤ ts ∧
      c ≤ info.timestamp ∧
      ∀ p ∈ l, p.2.timestamp ≤ ts → p.2.timestamp ≤ info.timestamp) := by
  intro l
  induction l with
  | nil =>
    intro v c hv _ _
    left
    exact ⟨rfl, fun p hp => absurd hp (List.not_mem_nil p)⟩
  | cons q rest ih =>
    intro v c hv hc hid
    obtain ⟨w, info⟩ := q
    have hidr : ∀ p ∈ rest, 0 ≤ p.1 :=
      fun p hp => hid p (List.mem_cons_of_mem _ hp)
    rw [selectLoop]
    by_cases hq : info.timestamp ≤ ts
    · rw [if_pos hq]
      by_cases hcond : v = -1 ∨ c < info.timestamp
      · rw [if_pos hcond]
        have hcle : c ≤ info.timestamp := by
          rcases hcond with h' | h'
          · exact absurd h' hv
          · exact le_of_lt h'
        have hw : ¬(w = -1) := by
          have h0 := hid (w, info) (List.mem_cons_self _ _)
          intro hcontra
          rw [hcontra] at h0
          norm_num at h0
        rcases ih w info.timestamp hw hq hidr with
          ⟨hres, hbound⟩ | ⟨info', hmem', hq', hcle', hmax'⟩
        · right
          refine ⟨info, ?_, hq, hcle, ?_⟩
          · rw [hres]; exact List.mem_cons_self _ _
          · intro p hp hple
            rcases List.mem_cons.mp hp with rfl | hp'
            · exact le_refl _
            · exact hbound p hp' hple
        · right
          refine ⟨info', List.mem_cons_of_mem _ hmem', hq',
            le_trans hcle hcle', ?_⟩
          intro p hp hple
          rcases List.mem_cons.mp hp with rfl | hp'
          · exact hcle'
          · exact hmax' p hp' hple
      · rw [if_neg hcond]
        push_neg at hcond
        have hle : info.timestamp ≤ c := hcond.2
        rcases ih v c hv hc hidr with
          ⟨hres, hbound⟩ | ⟨info', hmem', hq', hcle', hmax'⟩
        · left
          refine ⟨hres, ?_⟩
          intro p hp hple
          rcases List.mem_cons.mp hp with rfl | hp'
          · exact hle
          · exact hbound p hp' hple
        · right
          refine ⟨info', List.mem_cons_of_mem _ hmem', hq', hcle', ?_⟩
          intro p hp hple
          rcases List.mem_cons.mp hp with rfl | hp'
          · exact le_trans hle hcle'
          · exact hmax' p hp' hple
    · rw [if_neg hq]
      rcases ih v c hv hc hidr with
        ⟨hres, hbound⟩ | ⟨info', hmem', hq', hcle', hmax'⟩
      · left
        refine ⟨hres, ?_⟩
        intro p hp hple
        rcases List.mem_cons.mp hp with rfl | hp'
        · exact absurd hple hq
        · exact hbound p hp' hple
      · right
        refine ⟨info', List.mem_cons_of_mem _ hmem', hq', hcle', ?_⟩
        intro p hp hple
        rcases List.mem_cons.mp hp with rfl | hp'
        · exact absurd hple hq
        · exact hmax' p hp' hple

/-- From the initial sentinel: either nothing qualifies and the loop
returns −1, or it returns some qualifying version whose timestamp is
maximal among the qualifying ones. -/
theorem selectLoop_start (ts : Int) :
    ∀ l : List (Int × Version), (∀ p ∈ l, 0 ≤ p.1) →
    (selectLoop ts l (-1) 0 = -1 ∧ ∀ p ∈ l, ¬(p.2.timestamp ≤ ts)) ∨
    (∃ info, (selectLoop ts l (-1) 0, info) ∈ l ∧ info.timestamp ≤ ts ∧
      ∀ p ∈ l, p.2.timestamp ≤ ts → p.2.timestamp ≤ info.timestamp) := by
  intro l
  induction l with
  | nil =>
    intro _
    left
    exact ⟨rfl, fun p hp => absurd hp (List.not_mem_nil p)⟩
  | cons q rest ih =>
    intro hid
    obtain ⟨w, info⟩ := q
    have hidr : ∀ p ∈ rest, 0 ≤ p.1 :=
      fun p hp => hid p (List.mem_cons_of_mem _ hp)
    rw [selectLoop]
    by_cases hq : info.timestamp ≤ ts
    · rw [if_pos hq, if_pos (Or.inl rfl)]
      have hw : ¬(w = -1) := by
        have h0 := hid (w, info) (List.mem_cons_self _ _)
        intro hcontra
        rw [hcontra] at h0
        norm_num at h0
      rcases selectLoop_started ts rest w info.timestamp hw hq hidr with
        ⟨hres, hbound⟩ | ⟨info', hmem', hq', hcle', hmax'⟩
      · right
        refine ⟨info, ?_, hq, ?_⟩
        · rw [hres]; exact List.mem_cons_self _ _
        · intro p hp hple
          rcases List.mem_cons.mp hp with rfl | hp'
          · exact le_refl _
          · exact hbound p hp' hple
      · right
        refine ⟨info', List.mem_cons_of_mem _ hmem', hq', ?_⟩
        intro p hp hple
        rcases List.mem_cons.mp hp with rfl | hp'
        · exact hcle'
        · exact hmax' p hp' hple
    · rw [if_neg hq]
      rcases ih hidr with ⟨hres, hnone⟩ | ⟨info', hmem', hq', hmax'⟩
      · left
        refine ⟨hres, ?_⟩
        intro p hp
        rcases List.mem_cons.mp hp with rfl | hp'
        · exact hq
        · exact hnone p hp'
      · right
        refine ⟨info', List.mem_cons_of_mem _ hmem', hq', ?_⟩
        intro p hp hple
        rcases List.mem_cons.mp hp with rfl | hp'
        · exact absurd hple hq
        · exact hmax' p hp' hple

/-- C6, amended: `getByTimestamp(ts)` selects a version whose timestamp
is the greatest among those ≤ ts — but an equal-timestamp tie is broken
by the (unspecified) map-iteration order, keeping the first encountered
maximal-timestamp version, NOT necessarily the highest version id (see
the counterexample); and if no version has timestamp ≤ ts it returns the
empty record set without error. -/
theorem getByTimestamp_selects_max_le (s : Repo) (ts : Int)
    (hid : ∀ p ∈ s.versions, 0 ≤ p.1) :
    ((∀ p ∈ s.versions, ¬(p.2.timestamp ≤ ts)) →
      selectVersionByTimestamp s.versions ts = -1 ∧
      getByTimestamp s ts = .ok []) ∧
    (∀ q ∈ s.versions, q.2.timestamp ≤ ts →
      ∃ info, (selectVersionByTimestamp s.versions ts, info) ∈ s.versions ∧
        info.timestamp ≤ ts ∧
        ∀ p ∈ s.versions, p.2.timestamp ≤ ts →
          p.2.timestamp ≤ info.timestamp) := by
  constructor
  · intro hnone
    have h1 : selectVersionByTimestamp s.versions ts = -1 :=
      selectLoop_no_qualifying ts s.versions (-1) 0 hnone
    refine ⟨h1, ?_⟩
    rw [getByTimestamp]
    simp only [h1, if_pos]
  · intro q hq hqle
    rcases selectLoop_start ts s.versions hid with
      ⟨_, hnone⟩ | ⟨info, hmem, hle, hmax⟩
    · exact absurd hqle (hnone q hq)
    · exact ⟨info, hmem, hle, hmax⟩

/-- Witness for C6 (amended): on a table with versions stamped 5 and 7,
querying at timestamp 6 selects a qualifying version with maximal
timestamp, and no version qualifies at timestamp −100, giving the empty
result. -/
theorem getByTimestamp_selects_max_le_witness :
    ((∀ p ∈ c6Repo.versions, ¬(p.2.timestamp ≤ 6)) →
      selectVersionByTimestamp c6Repo.versions 6 = -1 ∧
      getByTimestamp c6Repo 6 = .ok []) ∧
    (∀ q ∈ c6Repo.versions, q.2.timestamp ≤ 6 →
      ∃ info, (selectVersionByTimestamp c6Repo.versions 6, info)
          ∈ c6Repo.versions ∧
        info.timestamp ≤ 6 ∧
        ∀ p ∈ c6Repo.versions, p.2.timestamp ≤ 6 →
          p.2.timestamp ≤ info.timestamp) :=
  getByTimestamp_selects_max_le c6Repo 6 (by decide)

/-! ## Claim C7 -/

/-- The source predicate agrees with the spec-worded predicate on every
record and condition. -/
theorem matchesCondition_eq_spec (e : Exercise) (c : Condition) :
    matchesCondition e c = specCondition e c := by
  obtain ⟨fld, op, v⟩ := c
  rw [matchesCondition, specCondition]
  cases hfv : conditionFieldValue e fld with
  | none => cases op <;> rfl
  | some fv => cases op <;> cases fv <;> cases v <;> rfl

/-- Filter matching is the AND of the spec-worded per-condition
predicate. -/
theorem matchesFilter_eq_spec (e : Exercise) (f : Filter) :
    matchesFilter e f = f.conditions.all (fun c => specCondition e c) := by
  rw [matchesFilter]
  have h : (fun c => matchesCondition e c) = fun c => specCondition e c :=
    funext (matchesCondition_eq_spec e)
  rw [h]

/-- Without limit and offset, pagination is the identity. -/
theorem applyPagination_none_none (xs : List Exercise) :
    applyPagination xs none none = some xs := by
  rw [applyPagination]
  dsimp only
  by_cases h : (xs.length : Int) ≤ 0
  · rw [if_pos h]
    have hlen : xs.length = 0 := by omega
    rw [List.eq_nil_of_length_eq_zero hlen]
  · rw [if_neg h]
    rw [goSlice, if_pos ⟨le_refl 0,
      ⟨Int.natCast_nonneg xs.length, le_refl ((xs.length : Int))⟩⟩]
    simp

/-- C7, confirmed: with no sorting or pagination requested, the records
returned by `queryWithFilter` are exactly those of the current snapshot
satisfying every condition of the filter — conditions are AND-combined —
where the per-condition predicate is precisely the spec's: equals,
not-equals, greater-than (int/int only), prefix-"like" (string/string
only), and "no match" for every operator/field combination outside this
set (first conjunct: the source predicate coincides with the spec-worded
predicate on all inputs, including the no-match asymmetry, without ever
raising an error). -/
theorem query_returns_iff_all_conditions (s : Repo) (f : Filter)
    (e : Exercise) (c : Condition) (hsort : f.sortBy = [])
    (hlim : f.limit = none) (hoff : f.offset = none) :
    matchesCondition e c = specCondition e c ∧
    queryWithFilter s f =
      some ((getAllFromFiles s).filter
        (fun x => f.conditions.all (fun c' => specCondition x c'))) := by
  refine ⟨matchesCondition_eq_spec e c, ?_⟩
  simp only [queryWithFilter]
  rw [hsort, hlim, hoff, applySorting, applyPagination_none_none]
  congr 1
  apply List.filter_congr
  intro x _
  rw [matchesFilter_eq_spec]

/-- Witness for C7: one cardio record, one equality condition. -/
theorem query_returns_iff_all_conditions_witness :
    matchesCondition demoExercise
      { field := "type", op := .eq, value := .vStr "cardio" } =
    specCondition demoExercise
      { field := "type", op := .eq, value := .vStr "cardio" } ∧
    queryWithFilter oneRecordRepo
      { conditions := [{ field := "type", op := .eq, value := .vStr "cardio" }],
        sortBy := [], limit := none, offset := none } =
      some ((getAllFromFiles oneRecordRepo).filter
        (fun x =>
          (Filter.conditions
            { conditions :=
                [{ field := "type", op := .eq, value := .vStr "cardio" }],
              sortBy := [], limit := none, offset := none }).all
            (fun c' => specCondition x c'))) :=
  query_returns_iff_all_conditions oneRecordRepo
    { conditions := [{ field := "type", op := .eq, value := .vStr "cardio" }],
      sortBy := [], limit := none, offset := none }
    demoExercise { field := "type", op := .eq, value := .vStr "cardio" }
    rfl rfl rfl

/-! ## Claim C9 -/

/-- Inserting into the model sort adds exactly one element. -/
theorem insertBy_length {α : Type} (le : α → α → Bool) (a : α) :
    ∀ l : List α, (insertBy le a l).length = l.length + 1
  | [] => rfl
  | b :: rest => by
    rw [insertBy]
    by_cases h : le a b = true
    · rw [if_pos h]
      rfl
    · rw [if_neg h, List.length_cons, List.length_cons,
        insertBy_length le a rest]

/-- The model sort preserves length (as `sort.Slice` does). -/
theorem sortSlice_length {α : Type} (le : α → α → Bool) :
    ∀ l : List α, (sortSlice le l).length = l.length
  | [] => rfl
  | a :: rest => by
    rw [sortSlice, insertBy_length, sortSlice_length le rest,
      List.length_cons]

/-- Sorting preserves length whatever the sort fields. -/
theorem applySorting_length (xs : List Exercise) :
    ∀ sf : List SortField, (applySorting xs sf).length = xs.length
  | [] => rfl
  | _ :: _ => sortSlice_length _ xs

/-- C9, confirmed: `queryWithFilter` is only total for non-negative
offsets.  Whenever the filter carries a negative offset and at least one
snapshot record matches its conditions, `applyPagination` reaches the Go
slice expression `exercises[start:end]` with a negative start index,
which panics (modelled by `none`). -/
theorem query_negative_offset_panics (s : Repo) (f : Filter) (o : Int)
    (hoff : f.offset = some o) (hneg : o < 0)
    (hmatch : ∃ e ∈ getAllFromFiles s, matchesFilter e f = true) :
    queryWithFilter s f = none := by
  obtain ⟨e, he, hm⟩ := hmatch
  simp only [queryWithFilter]
  have hmem : e ∈ (getAllFromFiles s).filter (fun x => matchesFilter x f) :=
    List.mem_filter.mpr ⟨he, hm⟩
  have hpos :
      0 < (applySorting
        ((getAllFromFiles s).filter (fun x => matchesFilter x f))
        f.sortBy).length := by
    rw [applySorting_length]
    exact List.length_pos.mpr (List.ne_nil_of_mem hmem)
  rw [applyPagination.eq_def, hoff]
  dsimp only
  rw [if_neg (by omega)]
  cases hl : f.limit with
  | none =>
    dsimp only
    rw [goSlice, if_neg ?_]
    intro hcon
    omega
  | some l =>
    dsimp only
    rw [goSlice, if_neg ?_]
    intro hcon
    omega

/-- Witness for C9: one record, empty condition list, offset −3. -/
theorem query_negative_offset_panics_witness :
    queryWithFilter oneRecordRepo
      { conditions := [], sortBy := [], limit := none,
        offset := some (-3) } = none :=
  query_negative_offset_panics oneRecordRepo
    { conditions := [], sortBy := [], limit := none, offset := some (-3) }
    (-3) rfl (by norm_num) ⟨demoExercise, by decide, rfl⟩

/-! ## Claim C10 -/

/-- C10, confirmed: on the versioned repository, `Update` with a record
whose id is non-zero always succeeds — it buffers the record as a
pending write and commits, and the commit's write application is an
upsert into the id-keyed record map, so a record absent from the current
snapshot is simply inserted into the new snapshot.  No error at all (in
particular no NotFound error) is returned: the only error paths are an
inactive transaction and a non-empty conflict list, and a freshly begun
transaction has neither. -/
theorem update_is_upsert_never_notfound (s : Repo) (e : Exercise)
    (t : Int) (hid : ¬(e.id = 0)) :
    (updateRecord s e t).2 = none ∧
    e ∈ getAllFromFiles (updateRecord s e t).1 := by
  have h1 : updateRecord s e t =
      commitTransaction s
        { isolationReadCommitted := true
          operations := [{ otype := .write, timestamp := t }]
          readVersion := s.currentVersion
          conflicts := []
          isActive := true
          pendingWrites := [e]
          pendingDeletes := [] } t := rfl
  rw [h1]
  constructor
  · rfl
  · simp only [commitTransaction]
    rw [if_neg (by simp), if_neg (by simp)]
    simp only [getAllFromFiles, applyTransactionChanges, saveVersionData]
    rw [mget_mset_self]
    dsimp only
    rw [applyWrites, if_neg hid, applyWrites, mset]
    simp

/-- Witness for C10: updating with an absent id 7 on the fresh table
succeeds and the record appears in the new snapshot. -/
theorem update_is_upsert_never_notfound_witness :
    (updateRecord initRepo { demoExercise with id := 7 } 2).2 = none ∧
    { demoExercise with id := 7 } ∈
      getAllFromFiles (updateRecord initRepo
        { demoExercise with id := 7 } 2).1 :=
  update_is_upsert_never_notfound initRepo { demoExercise with id := 7 } 2
    (by decide)

end DuckLake
